import Mathlib

/-!
Verification of the EVTX parser (`SOURCES/forensics/main_parse_evtx.cpp`).

The development shallowly embeds the parser: the chunk/file byte store is a
function `Nat → Nat` (each application masked to a byte), a `ParseContext`
mirrors the C struct (minus the raw pointers: the `data` pointer becomes a
`start` index into the byte store, and the `chunkContext` back-pointer becomes
the pair `chunkStart`/`chunkLen`, the only fields of the pointee that the
code ever reads through it), and every C function returning `bool` becomes a
Lean function returning a `Bool` success flag together with the updated
state.  Global mutable state (the name stack and the template cache) is
threaded explicitly as a `Globals` value.  `printf` output is not modelled;
loops whose only effect is output (the fixed-pair dump, the 0x81 string-array
scan) are represented by their net effect on the parse state, noted inline.
The recursive BinXml decoder is given an explicit fuel parameter; the C code
has no such bound (and can loop forever on `size = 0` records), so fuel
exhaustion is reported as failure.
-/

namespace Evtx

/-- A byte store: byte `i` of a buffer.  Applications are masked to 8 bits
via `byteAt`. -/
abbrev Bytes := Nat → Nat

/-- Read one byte, masked to 8 bits. -/
def byteAt (buf : Bytes) (i : Nat) : Nat := buf i % 256

/-- Little-endian value of `s` bytes starting at `pos`
(the C code reads multi-byte fields by pointer cast on a little-endian host). -/
def readLE (buf : Bytes) (pos : Nat) : Nat → Nat
  | 0 => 0
  | s + 1 => byteAt buf pos + 256 * readLE buf (pos + 1) s

/-- Store byte `v` at index `i`. -/
def writeByte (buf : Bytes) (i v : Nat) : Bytes :=
  fun j => if j = i then v else buf j

/-- `XmlParseState` from the source. -/
inductive XmlParseState where
  | StateNormal
  | StateInAttribute
deriving DecidableEq

/-- `TemplateArgPair`: key (UTF-8 bytes) and declared type. -/
structure TemplateArgPair where
  key : List Nat
  type : Nat
deriving DecidableEq

/-- `TemplateFixedPair`: key and literal value (UTF-8 bytes). -/
structure TemplateFixedPair where
  key : List Nat
  value : List Nat
deriving DecidableEq

/-- `TemplateDescription`: fixed pairs in insertion order, and the
substitution-index → (key, type) table. -/
structure TemplateDescription where
  shortID : Nat := 0
  fixed : List TemplateFixedPair := []
  args : List (Nat × TemplateArgPair) := []
deriving DecidableEq

/-- `TemplateDescription::RegisterFixedPair`. -/
def TemplateDescription.RegisterFixedPair (t : TemplateDescription)
    (key value : List Nat) : TemplateDescription :=
  { t with fixed := t.fixed ++ [⟨key, value⟩] }

/-- `TemplateDescription::RegisterArgPair`.  `unordered_map::emplace` does not
overwrite an existing entry. -/
def TemplateDescription.RegisterArgPair (t : TemplateDescription)
    (key : List Nat) (type argIdx : Nat) : TemplateDescription :=
  if (t.args.lookup argIdx).isSome then t
  else { t with args := t.args ++ [(argIdx, ⟨key, type⟩)] }

/-- `MAX_NAME_STACK_DEPTH`. -/
def maxNameStackDepth : Nat := 20

/-- The bounded name stack: 20 slots of 256-byte name buffers and a signed
stack pointer (`INVALID_STACK_DEPTH = -1` marks the empty stack). -/
structure NameStack where
  names : List (List Nat)
  nameStackPtr : Int
deriving DecidableEq

/-- The freshly-constructed stack. -/
def NameStack.init : NameStack :=
  ⟨List.replicate maxNameStackDepth [], -1⟩

/-- `NameStack::Reset` — only the pointer is reset; slot contents remain. -/
def NameStack.Reset (s : NameStack) : NameStack :=
  { s with nameStackPtr := -1 }

/-- `strncpy` into a 256-byte slot with a forced terminating NUL keeps at
most 255 bytes of the name. -/
def truncName (name : List Nat) : List Nat := name.take 255

/-- `NameStack::PushName` — silently ignores the push when the stack is full. -/
def NameStack.PushName (s : NameStack) (name : List Nat) : NameStack :=
  if s.nameStackPtr + 1 ≥ (maxNameStackDepth : Int) then s
  else
    { names := s.names.set (s.nameStackPtr + 1).toNat (truncName name),
      nameStackPtr := s.nameStackPtr + 1 }

/-- `NameStack::PopName`. -/
def NameStack.PopName (s : NameStack) : NameStack :=
  if s.nameStackPtr > -1 then { s with nameStackPtr := s.nameStackPtr - 1 } else s

/-- `NameStack::GetName`. -/
def NameStack.GetName (s : NameStack) : Option (List Nat) :=
  if s.nameStackPtr ≤ -1 ∨ s.nameStackPtr ≥ (maxNameStackDepth : Int) then none
  else some (s.names.getD s.nameStackPtr.toNat [])

/-- `NameStack::GetUpperName`. -/
def NameStack.GetUpperName (s : NameStack) : Option (List Nat) :=
  if s.nameStackPtr ≤ -1 ∨ s.nameStackPtr ≥ (maxNameStackDepth : Int) then none
  else if s.nameStackPtr < 1 then none
  else some (s.names.getD (s.nameStackPtr - 1).toNat [])

/-- Abstract operations on the name stack, for stating its invariant. -/
inductive StackOp where
  | push (name : List Nat)
  | pop
deriving DecidableEq

/-- Apply one stack operation. -/
def applyOp (s : NameStack) : StackOp → NameStack
  | .push name => s.PushName name
  | .pop => s.PopName

/-- Apply a sequence of stack operations. -/
def applyOps (s : NameStack) (ops : List StackOp) : NameStack :=
  ops.foldl applyOp s

/-- The global mutable state of the parser: the name stack and the
per-chunk template cache (`Templates::knownIDs`, an id → description map,
here an association list). -/
structure Globals where
  nameStack : NameStack
  ids : List (Nat × TemplateDescription)
deriving DecidableEq

/-- The state at program start. -/
def initGlobals : Globals := ⟨NameStack.init, []⟩

/-- Insert-or-replace in the template cache (`knownIDs[id] = ...`). -/
def idsSet (ids : List (Nat × TemplateDescription)) (id : Nat)
    (d : TemplateDescription) : List (Nat × TemplateDescription) :=
  match ids with
  | [] => [(id, d)]
  | (k, v) :: rest => if k = id then (id, d) :: rest else (k, v) :: idsSet rest id d

/-- `Templates::IsKnownID` (the out-parameter becomes the lookup result). -/
def Globals.IsKnownID (g : Globals) (id : Nat) : Bool :=
  (g.ids.lookup id).isSome

/-- `Templates::RegisterID` — installs a fresh empty description. -/
def Globals.RegisterID (g : Globals) (id : Nat) : Globals :=
  { g with ids := idsSet g.ids id {} }

/-- `ResetTemplates` together with `nameStack.Reset()` as performed at the
top of each chunk iteration of `ParseEVTXInt`. -/
def resetGlobals (g : Globals) : Globals :=
  { nameStack := g.nameStack.Reset, ids := [] }

/-- Mutate the description the context's `currentTemplatePtr` points at.
In the C code the pointer aims into the cache map; entries are never erased
while a pointer is live, so the lookup always succeeds in walker runs. -/
def updTemplate (g : Globals) (tid : Option Nat)
    (f : TemplateDescription → TemplateDescription) : Globals :=
  match tid with
  | none => g
  | some id =>
    match g.ids.lookup id with
    | none => g
    | some d => { g with ids := idsSet g.ids id (f d) }

/-- `ParseContext`.  `start` stands for the `data` pointer (an index into the
byte store); `chunkStart`/`chunkLen` are the `data`/`dataLen` of the context
`chunkContext` points at — the only fields the code reads through that
pointer (in `ReadName`), and both are stable while the child context is
live. -/
structure ParseContext where
  start : Nat
  dataLen : Nat
  offset : Nat
  offsetFromChunkStart : Nat
  chunkStart : Nat
  chunkLen : Nat
  state : XmlParseState := .StateNormal
  currentTemplate : Option Nat := none
  cachedValue : List Nat := []
deriving DecidableEq

/-- `ParseContext::HaveEnoughData`. -/
def ParseContext.HaveEnoughData (ctx : ParseContext) (numBytes : Nat) : Bool :=
  ctx.offset + numBytes ≤ ctx.dataLen

/-- `ParseContext::SkipBytes`. -/
def ParseContext.SkipBytes (ctx : ParseContext) (numBytes : Nat) : ParseContext :=
  { ctx with offset := ctx.offset + numBytes }

/-- The copy loop of `ParseContext::ReadData`: element `idx` is read at the
current offset and the offset advances by the element size. -/
def readLoop (buf : Bytes) (s : Nat) : Nat → ParseContext → List Nat × ParseContext
  | 0, ctx => ([], ctx)
  | count + 1, ctx =>
    let v := readLE buf (ctx.start + ctx.offset) s
    let r := readLoop buf s count (ctx.SkipBytes s)
    (v :: r.1, r.2)

/-- `ParseContext::ReadData` for an element type of size `s`, reading
`count` elements.  Returns (success, values, updated context). -/
def ReadData (buf : Bytes) (ctx : ParseContext) (s count : Nat) :
    Bool × List Nat × ParseContext :=
  if ctx.HaveEnoughData (s * count) then
    let r := readLoop buf s count ctx
    (true, r.1, r.2)
  else (false, [], ctx)

/-- `ParseContext::InheritWithOffset`.  `child` supplies the fields the C
routine leaves untouched (the callee is default-constructed at the call
site). -/
def ParseContext.InheritWithOffset (child other : ParseContext)
    (wantedLen : Nat) : ParseContext :=
  let dataLen :=
    if other.offset + wantedLen > other.dataLen then
      if other.offset ≥ other.dataLen then 0
      else other.dataLen - other.offset
    else wantedLen
  { child with
    start := other.start + other.offset,
    dataLen := dataLen,
    offset := 0,
    chunkStart := other.start,
    chunkLen := other.dataLen,
    offsetFromChunkStart := other.offset + other.offsetFromChunkStart,
    cachedValue := [] }

/-- `ParseContext::UpdateLen`. -/
def ParseContext.UpdateLen (ctx : ParseContext) (wantedLen : Nat) : ParseContext :=
  if wantedLen ≤ ctx.dataLen then { ctx with dataLen := wantedLen } else ctx

/-- The trailing-byte loop of `UTF16ToUTF8`: writes continuation bytes at
`base + charIndex` for `charIndex = k, ..., 1`, shifting `w` right by 6 bits
per byte; returns the final buffer and the shifted `w`. -/
def writeTrail (buffer : Bytes) (base w : Nat) : Nat → Bytes × Nat
  | 0 => (buffer, w)
  | k + 1 =>
    let buffer2 := writeByte buffer (base + (k + 1)) (0x80 ||| (w &&& 0x3F))
    writeTrail buffer2 base (w >>> 6) k

/-- `UTF16ToUTF8`: append the UTF-8 encoding of the 16-bit unit `w` to
`buffer` at `bufferUsed`, refusing to touch the buffer if the encoded bytes
(plus one) would not fit below `bufferSize`. -/
def UTF16ToUTF8 (w : Nat) (buffer : Bytes) (bufferUsed bufferSize : Nat) :
    Bytes × Nat :=
  let clmm : Nat × Nat × Nat := (1, 0, 0)
  let clmm := if w > 0x7F then (clmm.1 + 1, clmm.2.1 ||| (0x80 + 0x40), 0xFF) else clmm
  let clmm := if w > 0x7FF then (clmm.1 + 1, clmm.2.1 ||| 0x20, 0x1F) else clmm
  let clmm := if w > 0xFFFF then (clmm.1 + 1, clmm.2.1 ||| 0x10, 0x0F) else clmm
  let charLength := clmm.1
  let msb := clmm.2.1
  let mask := clmm.2.2
  if bufferUsed + charLength ≥ bufferSize then (buffer, bufferUsed)
  else if charLength = 1 then (writeByte buffer bufferUsed w, bufferUsed + 1)
  else
    let r := writeTrail buffer bufferUsed w (charLength - 1)
    (writeByte r.1 bufferUsed (msb ||| (r.2 &&& mask)), bufferUsed + charLength)

/-- The character loop of `ReadPrefixedUnicodeString`: while
`idx < nameCharCnt` and `idx * 2 < nameBufferSize - 1`, read one UTF-16 unit
and transcode it into the name buffer.  The loop runs at most `nameCharCnt`
iterations, which serves as structural fuel (the entry point passes exactly
`nameCharCnt`); returns (success, context, buffer, used, final idx). -/
def rpusLoop (buf : Bytes) (nameCharCnt nameBufferSize : Nat) :
    Nat → Nat → ParseContext → Bytes → Nat →
    Bool × ParseContext × Bytes × Nat × Nat
  | 0, idx, ctx, buffer, used => (true, ctx, buffer, used, idx)
  | fuel + 1, idx, ctx, buffer, used =>
    if idx < nameCharCnt ∧ idx * 2 < nameBufferSize - 1 then
      match ReadData buf ctx 2 1 with
      | (false, _, c) => (false, c, buffer, used, idx)
      | (true, vs, c) =>
        let r := UTF16ToUTF8 (vs.headD 0) buffer used nameBufferSize
        rpusLoop buf nameCharCnt nameBufferSize fuel (idx + 1) c r.1 r.2
    else (true, ctx, buffer, used, idx)

/-- `ReadPrefixedUnicodeString`: read a 16-bit length-prefixed UTF-16LE
string, transcoding into a bounded buffer; undeclared-but-unread units (and
the trailing NUL when expected) are skipped so that the stream advances by
the wire-declared length.  Returns (success, UTF-8 bytes, context). -/
def ReadPrefixedUnicodeString (buf : Bytes) (ctx : ParseContext)
    (nameBufferSize : Nat) (isNullTerminated : Bool) :
    Bool × List Nat × ParseContext :=
  match ReadData buf ctx 2 1 with
  | (false, _, c) => (false, [], c)
  | (true, vs, ctx1) =>
    let nameCharCnt := vs.headD 0
    match rpusLoop buf nameCharCnt nameBufferSize nameCharCnt 0 ctx1
        (fun _ => 0) 0 with
    | (false, c, _, _, _) => (false, [], c)
    | (true, ctx2, buffer, used, idx) =>
      let used2 := if used ≥ nameBufferSize then nameBufferSize - 1 else used
      let name := (List.range used2).map buffer
      let ctx3 := ctx2.SkipBytes
        ((nameCharCnt - idx + (if isNullTerminated then 1 else 0)) * 2)
      (true, name, ctx3)

/-- The shared tail of `ReadName`: skip the 4-byte link, read the 2-byte
hash, then the length-prefixed null-terminated string. -/
def readNameAt (buf : Bytes) (ctx : ParseContext) (nameBufferSize : Nat) :
    Bool × List Nat × ParseContext :=
  match ReadData buf ctx 4 1 with
  | (false, _, c) => (false, [], c)
  | (true, _, c1) =>
    match ReadData buf c1 2 1 with
    | (false, _, c) => (false, [], c)
    | (true, _, c2) => ReadPrefixedUnicodeString buf c2 nameBufferSize true

/-- `ReadName`: read a chunk-absolute name offset; if it differs from the
current absolute position, resolve the name through a temporary context over
the chunk context's window (whose changes are discarded), else read the name
in place. -/
def ReadName (buf : Bytes) (ctx : ParseContext) (nameBufferSize : Nat) :
    Bool × List Nat × ParseContext :=
  if nameBufferSize < 2 then (false, [], ctx)
  else
    match ReadData buf ctx 4 1 with
    | (false, _, c) => (false, [], c)
    | (true, vs, ctx1) =>
      let chunkOffset := vs.headD 0
      if ctx1.offset + ctx1.offsetFromChunkStart ≠ chunkOffset then
        let t : ParseContext :=
          { ctx1 with start := ctx1.chunkStart, dataLen := ctx1.chunkLen,
                      offset := chunkOffset }
        let r := readNameAt buf t nameBufferSize
        (r.1, r.2.1, ctx1)
      else readNameAt buf ctx1 nameBufferSize

/-- `SetState`: moving away from `StateInAttribute` pops the attribute
name. -/
def SetState (ctx : ParseContext) (g : Globals) (newState : XmlParseState) :
    ParseContext × Globals :=
  if newState = ctx.state then (ctx, g)
  else
    let g2 := if ctx.state = XmlParseState.StateInAttribute then
        { g with nameStack := g.nameStack.PopName } else g
    ({ ctx with state := newState }, g2)

/-- UTF-8 bytes of the string `Data`. -/
def dataKey : List Nat := [0x44, 0x61, 0x74, 0x61]

/-- UTF-8 bytes of the string `EventData`. -/
def eventDataKey : List Nat := [0x45, 0x76, 0x65, 0x6E, 0x74, 0x44, 0x61, 0x74, 0x61]

/-- UTF-8 bytes of the string `Name`. -/
def nameKey : List Nat := [0x4E, 0x61, 0x6D, 0x65]

/-- `GetProperKeyName`: the contextual `Data`/`EventData` key rewrite. -/
def GetProperKeyName (ctx : ParseContext) (g : Globals) : Option (List Nat) :=
  let key := g.nameStack.GetName
  let upperName := g.nameStack.GetUpperName
  if upperName.isSome ∧ key.isSome ∧ key = some dataKey ∧
      upperName = some eventDataKey ∧ ctx.cachedValue ≠ [] then
    some ctx.cachedValue
  else key

/-- `ParseValueText`. -/
def ParseValueText (buf : Bytes) (ctx : ParseContext) (g : Globals) :
    Bool × ParseContext × Globals :=
  match ReadData buf ctx 1 1 with
  | (false, _, c) => (false, c, g)
  | (true, _, ctx1) =>
    match ReadPrefixedUnicodeString buf ctx1 256 false with
    | (false, _, c) => (false, c, g)
    | (true, valueBuffer, ctx2) =>
      let key := GetProperKeyName ctx2 g
      let upperName := g.nameStack.GetUpperName
      let g1 :=
        if key.isSome ∧ (upperName = none ∨ key ≠ some nameKey ∨
            upperName ≠ some dataKey) then
          if ctx2.currentTemplate.isSome then
            updTemplate g ctx2.currentTemplate
              (fun t => t.RegisterFixedPair (key.getD []) valueBuffer)
          else g
        else g
      let r := SetState ctx2 g1 XmlParseState.StateNormal
      let ctx4 := { r.1 with cachedValue := valueBuffer.take 255 }
      (true, ctx4, r.2)

/-- `ParseAttributes`. -/
def ParseAttributes (buf : Bytes) (ctx : ParseContext) (g : Globals) :
    Bool × ParseContext × Globals :=
  match ReadName buf ctx 256 with
  | (false, _, c) => (false, c, g)
  | (true, nameBuffer, ctx1) =>
    let g1 := { g with nameStack := g.nameStack.PushName nameBuffer }
    let r := SetState ctx1 g1 XmlParseState.StateInAttribute
    (true, r.1, r.2)

/-- `ParseOpenStartElement`. -/
def ParseOpenStartElement (buf : Bytes) (ctx : ParseContext) (g : Globals)
    (hasAttributes : Bool) : Bool × ParseContext × Globals :=
  match ReadData buf ctx 2 1 with
  | (false, _, c) => (false, c, g)
  | (true, _, c1) =>
    match ReadData buf c1 4 1 with
    | (false, _, c) => (false, c, g)
    | (true, _, c2) =>
      match ReadName buf c2 256 with
      | (false, _, c) => (false, c, g)
      | (true, nameBuffer, c3) =>
        let next : Bool × ParseContext :=
          if hasAttributes then
            match ReadData buf c3 4 1 with
            | (false, _, c) => (false, c)
            | (true, _, c4) => (true, c4)
          else (true, c3)
        if next.1 then
          (true, next.2, { g with nameStack := g.nameStack.PushName nameBuffer })
        else (false, next.2, g)

/-- `ParseCloseStartElement`. -/
def ParseCloseStartElement (ctx : ParseContext) (g : Globals) :
    Bool × ParseContext × Globals :=
  let r := SetState ctx g XmlParseState.StateNormal
  (true, r.1, r.2)

/-- `ParseCloseElement`. -/
def ParseCloseElement (ctx : ParseContext) (g : Globals) :
    Bool × ParseContext × Globals :=
  let r := SetState ctx g XmlParseState.StateNormal
  (true, r.1, { r.2 with nameStack := r.2.nameStack.PopName })

/-- `ParseOptionalSubstitution` (tags 0x0D and 0x0E). -/
def ParseOptionalSubstitution (buf : Bytes) (ctx : ParseContext) (g : Globals) :
    Bool × ParseContext × Globals :=
  match ReadData buf ctx 2 1 with
  | (false, _, c) => (false, c, g)
  | (true, vs, ctx1) =>
    let substitutionID := vs.headD 0
    match ReadData buf ctx1 1 1 with
    | (false, _, c) => (false, c, g)
    | (true, tv, ctx2) =>
      let valueType := tv.headD 0
      let next : Bool × Nat × ParseContext :=
        if valueType = 0 then
          match ReadData buf ctx2 1 1 with
          | (false, _, c) => (false, 0, c)
          | (true, tv2, ctx3) => (true, tv2.headD 0, ctx3)
        else (true, valueType, ctx2)
      if next.1 then
        let g1 :=
          if next.2.2.currentTemplate.isSome then
            updTemplate g next.2.2.currentTemplate
              (fun t => t.RegisterArgPair
                ((GetProperKeyName next.2.2 g).getD []) next.2.1 substitutionID)
          else g
        let r := SetState next.2.2 g1 XmlParseState.StateNormal
        (true, r.1, r.2)
      else (false, next.2.2, g)

/-- The UTF-16 read loop of the type-0x01 (string) argument branch:
`argLen / 2` units are read and transcoded into a scratch buffer of size
`argLen * 2 + 2` (the buffer is printed and discarded; it is threaded here
for fidelity). -/
def stringArgLoop (buf : Bytes) (stringSize : Nat) :
    Nat → ParseContext → Bytes → Nat → Bool × ParseContext × Bytes × Nat
  | 0, ctx, sb, used => (true, ctx, sb, used)
  | n + 1, ctx, sb, used =>
    match ReadData buf ctx 2 1 with
    | (false, _, c) => (false, c, sb, used)
    | (true, vs, c) =>
      let r := UTF16ToUTF8 (vs.headD 0) sb used stringSize
      stringArgLoop buf stringSize n c r.1 r.2

/-- The byte loop of the type-0x0E (binary) argument branch: `argLen` single
bytes are read (and printed as hex). -/
def binArgLoop (buf : Bytes) : Nat → ParseContext → Bool × ParseContext
  | 0, ctx => (true, ctx)
  | n + 1, ctx =>
    match ReadData buf ctx 1 1 with
    | (false, _, c) => (false, c)
    | (true, _, c) => binArgLoop buf n c

/-- The sub-authority loop of the type-0x13 (SID) argument branch:
`for (idx = 8; idx + 4 <= argLen; idx += 4)` read one u32.  The loop runs at
most `argLen` times; the caller passes `argLen` as structural fuel, which is
never exhausted before the condition fails. -/
def sidSubLoop (buf : Bytes) (argLen : Nat) :
    Nat → Nat → ParseContext → Bool × ParseContext
  | 0, _, ctx => (true, ctx)
  | fuel + 1, idx, ctx =>
    if idx + 4 ≤ argLen then
      match ReadData buf ctx 4 1 with
      | (false, _, c) => (false, c)
      | (true, _, c) => sidSubLoop buf argLen fuel (idx + 4) c
    else (true, ctx)

/- The BinXml decoder.  All routines of the mutual block recurse with one
unit of fuel consumed per step so that the mutual recursion is structural on
`fuel`; the C code carries no such bound, so fuel exhaustion is reported as
failure. -/
mutual

/-- The token loop of `ParseBinXml` (entered with `result = true`): while
the offset is inside the window, dispatch one tag byte. -/
def ParseBinXmlGo (buf : Bytes) : Nat → ParseContext → Globals →
    Bool × ParseContext × Globals
  | 0, ctx, g => (false, ctx, g)
  | fuel + 1, ctx, g =>
    if ctx.offset < ctx.dataLen then
      let tag := byteAt buf (ctx.start + ctx.offset)
      let ctx1 := { ctx with offset := ctx.offset + 1 }
      let step : Bool × ParseContext × Globals :=
        match tag with
        | 0x00 => (true, { ctx1 with offset := ctx1.dataLen }, g)
        | 0x01 => ParseOpenStartElement buf ctx1 g false
        | 0x41 => ParseOpenStartElement buf ctx1 g true
        | 0x02 => ParseCloseStartElement ctx1 g
        | 0x03 => ParseCloseElement ctx1 g
        | 0x04 => ParseCloseElement ctx1 g
        | 0x05 => ParseValueText buf ctx1 g
        | 0x45 => ParseValueText buf ctx1 g
        | 0x06 => ParseAttributes buf ctx1 g
        | 0x46 => ParseAttributes buf ctx1 g
        | 0x07 => (true, ctx1, g)
        | 0x47 => (true, ctx1, g)
        | 0x08 => (true, ctx1, g)
        | 0x48 => (true, ctx1, g)
        | 0x09 => (true, ctx1, g)
        | 0x49 => (true, ctx1, g)
        | 0x0A => (true, ctx1, g)
        | 0x0B => (true, ctx1, g)
        | 0x0C => ParseTemplateInstance buf fuel ctx1 g
        | 0x0D => ParseOptionalSubstitution buf ctx1 g
        | 0x0E => ParseOptionalSubstitution buf ctx1 g
        | 0x0F => (true, ctx1.SkipBytes 3, g)
        | _ => (false, ctx1, g)
      match step with
      | (false, c, g2) => (false, c, g2)
      | (true, c, g2) => ParseBinXmlGo buf fuel c g2
    else (true, ctx, g)

/-- `ParseTemplateInstance` (tag 0x0C). -/
def ParseTemplateInstance (buf : Bytes) : Nat → ParseContext → Globals →
    Bool × ParseContext × Globals
  | 0, ctx, g => (false, ctx, g)
  | fuel + 1, ctx, g =>
    match ReadData buf ctx 1 1 with
    | (false, _, c) => (false, c, g)
    | (true, bv, c1) =>
      if bv.headD 0 ≠ 0x01 then (false, c1, g)
      else
        match ReadData buf c1 4 1 with
        | (false, _, c) => (false, c, g)
        | (true, sv, c2) =>
          let shortID := sv.headD 0
          match ReadData buf c2 4 1 with
          | (false, _, c) => (false, c, g)
          | (true, _, c3) =>
            match ReadData buf c3 4 1 with
            | (false, _, c) => (false, c, g)
            | (true, nv, c4) =>
              let after : Bool × Nat × ParseContext × Globals :=
                if g.IsKnownID shortID then
                  (true, nv.headD 0,
                   { c4 with currentTemplate := some shortID }, g)
                else
                  match ReadData buf c4 1 16 with
                  | (false, _, c) => (false, 0, c, g)
                  | (true, _, c5) =>
                    match ReadData buf c5 4 1 with
                    | (false, _, c) => (false, 0, c, g)
                    | (true, lv, c6) =>
                      let templateBodyLen := lv.headD 0
                      let templateCtx :=
                        ParseContext.InheritWithOffset
                          { start := 0, dataLen := 0, offset := 0,
                            offsetFromChunkStart := 0, chunkStart := 0,
                            chunkLen := 0 } c6 templateBodyLen
                      let g1 := g.RegisterID shortID
                      let templateCtx :=
                        { templateCtx with currentTemplate := some shortID }
                      match ParseBinXmlGo buf fuel
                          { templateCtx with
                            state := XmlParseState.StateNormal } g1 with
                      | (false, _, g2) => (false, 0, c6, g2)
                      | (true, tctx, g2) =>
                        let c7 := c6.SkipBytes templateBodyLen
                        match ReadData buf c7 4 1 with
                        | (false, _, c) => (false, 0, c, g2)
                        | (true, nv2, c8) =>
                          (true, nv2.headD 0,
                           { c8 with currentTemplate := tctx.currentTemplate },
                           g2)
              if after.1 then
                let numArguments := after.2.1
                let ctxA := after.2.2.1
                let gA := after.2.2.2
                -- the fixed-pair dump loop only prints; no state change
                let argumentMapCount := numArguments * 2
                match ReadData buf ctxA 2 argumentMapCount with
                | (false, _, c) => (false, c, gA)
                | (true, argumentMap, ctxB) =>
                  renderArgsLoop buf fuel argumentMap numArguments 0 ctxB gA
              else (false, after.2.2.1, after.2.2.2)

/-- The per-argument loop of `ParseTemplateInstance`: `remaining` counts the
slots still to render, `argumentIdx` the current slot.  The declared
(key, type) entry is looked up afresh each iteration (nested BinXml values
can grow the active template's tables mid-loop); the `unordered_map` key is
`uint16_t`, so the 64-bit loop index is truncated. -/
def renderArgsLoop (buf : Bytes) : Nat → List Nat → Nat → Nat →
    ParseContext → Globals → Bool × ParseContext × Globals
  | 0, _, _, _, ctx, g => (false, ctx, g)
  | _ + 1, _, 0, _, ctx, g => (true, ctx, g)
  | fuel + 1, argumentMap, remaining + 1, argumentIdx, ctx, g =>
    let argLen := argumentMap.getD (argumentIdx * 2) 0
    let argType := argumentMap.getD (argumentIdx * 2 + 1) 0
    let argPair : Option TemplateArgPair :=
      match ctx.currentTemplate with
      | none => none
      | some tid =>
        (((g.ids.lookup tid).getD {}).args.lookup (argumentIdx % 65536))
    match argPair with
    | none =>
      renderArgsLoop buf fuel argumentMap remaining (argumentIdx + 1)
        (ctx.SkipBytes argLen) g
    | some _ =>
      match renderArg buf fuel argType argLen ctx g with
      | (false, c, g2) => (false, c, g2)
      | (true, c, g2) =>
        renderArgsLoop buf fuel argumentMap remaining (argumentIdx + 1) c g2

/-- The typed argument renderer: the `switch (argType)` of
`ParseTemplateInstance`, for a slot that has a declared (key, type) entry.
Output formatting is not modelled; branches whose loops only print
(0x81) are represented by their net effect on the context, per the inline
notes. -/
def renderArg (buf : Bytes) : Nat → Nat → Nat → ParseContext → Globals →
    Bool × ParseContext × Globals
  | 0, _, _, ctx, g => (false, ctx, g)
  | fuel + 1, argType, argLen, ctx, g =>
    if argType = 0x01 then
      -- String: argLen/2 UTF-16 units into a scratch buffer, then printed
      let r := stringArgLoop buf (argLen * 2 + 2) (argLen / 2) ctx
        (fun _ => 0) 0
      (r.1, r.2.1, g)
    else if argType = 0x04 then
      let r := ReadData buf ctx 1 1
      (r.1, r.2.2, g)
    else if argType = 0x06 then
      let r := ReadData buf ctx 2 1
      (r.1, r.2.2, g)
    else if argType = 0x08 then
      let r := ReadData buf ctx 4 1
      (r.1, r.2.2, g)
    else if argType = 0x0A then
      let r := ReadData buf ctx 8 1
      (r.1, r.2.2, g)
    else if argType = 0x0E then
      -- binary: argLen single-byte reads
      let r := binArgLoop buf argLen ctx
      (r.1, r.2, g)
    else if argType = 0x0F then
      -- GUID: one 16-byte struct read
      let r := ReadData buf ctx 16 1
      (r.1, r.2.2, g)
    else if argType = 0x14 then
      let r := ReadData buf ctx 4 1
      (r.1, r.2.2, g)
    else if argType = 0x15 then
      let r := ReadData buf ctx 8 1
      (r.1, r.2.2, g)
    else if argType = 0x11 then
      -- FileTime: one u64 read; the timestamp formatting only prints
      let r := ReadData buf ctx 8 1
      (r.1, r.2.2, g)
    else if argType = 0x13 then
      -- SID: fails outright when argLen < 8
      if argLen < 8 then (false, ctx, g)
      else
        match ReadData buf ctx 1 8 with
        | (false, _, c) => (false, c, g)
        | (true, _, c1) =>
          let r := sidSubLoop buf argLen argLen 8 c1
          (r.1, r.2, g)
    else if argType = 0x21 then
      -- nested BinXml on a discarded copy of the context (length capped);
      -- its errors are swallowed, but its global effects persist
      let t := ctx.UpdateLen (ctx.offset + argLen)
      let r := ParseBinXmlGo buf fuel
        { t with state := XmlParseState.StateNormal } g
      (true, ctx.SkipBytes argLen, r.2.2)
    else if argType = 0x81 then
      -- string array: the scan loop reads only a discarded copy of the
      -- context and prints; the net contextual effect is the final skip
      (true, ctx.SkipBytes argLen, g)
    else
      -- unknown types (and 0x00) skip the declared length
      (true, ctx.SkipBytes argLen, g)

end

/-- `ParseBinXml`: resets the decoder state to Normal, then runs the token
loop.  (The `chunkOffsetInFile` parameter of the C function is used only for
debug prints and is dropped.) -/
def ParseBinXml (buf : Bytes) (fuel : Nat) (ctx : ParseContext) (g : Globals) :
    Bool × ParseContext × Globals :=
  ParseBinXmlGo buf fuel { ctx with state := XmlParseState.StateNormal } g

/-- `ParseBinXmlPre`: build the record-level context over the chunk buffer
(`chunkContext` is the context itself) and decode. -/
def ParseBinXmlPre (buf : Bytes) (dataLen inChunkOffset : Nat) (fuel : Nat)
    (g : Globals) : Bool × ParseContext × Globals :=
  let ctx : ParseContext :=
    { start := 0, dataLen := dataLen, offset := inChunkOffset,
      offsetFromChunkStart := 0, chunkStart := 0, chunkLen := dataLen,
      state := XmlParseState.StateNormal, currentTemplate := none,
      cachedValue := [] }
  ParseBinXml buf fuel ctx g

/-- `EVTX_CHUNK_SIZE`. -/
def chunkSize : Nat := 0x10000

/-- `sizeof(EvtxRecordHeader)`: u32 magic, u32 size, u64 number, u64
timestamp. -/
def recordHeaderSize : Nat := 24

/-- The record loop of `ParseEVTXInt` over one chunk.  `cb` is the chunk's
byte offset within the file, `first`/`last` the chunk header's record-number
range, `iro` the in-chunk record offset (`inRecordOff`).  Returns
(`result`, final `inRecordOff`, globals).  The record timestamp conversion
(`UnixTimeFromFileTime` from `tools/wintime.h`, absent from the sources,
plus libc `gmtime_r`) only feeds the printed timestamp; its failure branch
is modelled from the spec as never taken, since the spec's walker
description (§4.7) has no timestamp-failure exit. -/
def recordWalk (file : Bytes) : Nat → Nat → Nat → Nat → Nat → Globals →
    Bool × Nat × Globals
  | 0, _, _, _, iro, g => (false, iro, g)
  | fuel + 1, cb, first, last, iro, g =>
    if iro + recordHeaderSize > chunkSize then (true, iro, g)
    else if readLE file (cb + iro) 4 ≠ 0x00002a2a then (true, iro, g)
    else
      let number := readLE file (cb + iro + 8) 8
      let size := readLE file (cb + iro + 4) 4
      match ParseBinXmlPre (fun i => file (cb + i)) chunkSize
          (iro + recordHeaderSize) fuel g with
      | (false, _, g2) =>
        (if first ≤ number ∧ number ≤ last then false else true, iro, g2)
      | (true, _, g2) =>
        recordWalk file fuel cb first last (iro + size) g2

/-- Outcome of processing one chunk: whether the outer loop continues, the
walker's `result` flag, the global state right after the chunk's record walk
(observed before the next chunk's reset), and the updated file offset. -/
structure ChunkOutcome where
  cont : Bool
  result : Bool
  walkGlobals : Globals
  nextOff : Nat
deriving DecidableEq

/-- `EVTX_CHUNK_HEADER_MAGIC` — `memcmp` covers the string's 8 bytes
including its NUL. -/
def chunkMagic : List Nat := [0x45, 0x6C, 0x66, 0x43, 0x68, 0x6E, 0x6B, 0x00]

/-- The chunk-magic check of `ParseEVTXInt`. -/
def chunkMagicOk (file : Bytes) (off : Nat) : Bool :=
  (List.range 8).all (fun i => byteAt file (off + i) = chunkMagic.getD i 0)

/-- The tail of a chunk iteration: advance the file offset by the chunk
size, and fail if the accumulated in-record offset exceeds it. -/
def finishChunk (off : Nat) (walk : Bool × Nat × Globals) : ChunkOutcome :=
  let off2 := off + chunkSize
  if walk.2.1 > off2 then ⟨false, false, walk.2.2, off2⟩
  else ⟨walk.1, walk.1, walk.2.2, off2⟩

/-- One iteration of the chunk loop of `ParseEVTXInt`: reset the template
cache and name stack, read the chunk (a short read ends the walk with
`result` unchanged, i.e. `true`), check the magic (mismatch likewise), then
walk the records from in-chunk offset 0x200.  The `lseek` is modelled as
always succeeding. -/
def chunkStep (file : Bytes) (len : Nat) (fuel off : Nat) (g : Globals) :
    ChunkOutcome :=
  let g0 := resetGlobals g
  if off + chunkSize > len then ⟨false, true, g0, off⟩
  else if !(chunkMagicOk file off) then ⟨false, true, g0, off⟩
  else
    let first := readLE file (off + 8) 8
    let last := readLE file (off + 16) 8
    finishChunk off (recordWalk file fuel off first last 0x200 g0)

/-- The chunk loop of `ParseEVTXInt`. -/
def chunkLoop (file : Bytes) (len : Nat) : Nat → Nat → Globals → Bool
  | 0, _, _ => true
  | fuel + 1, off, g =>
    let o := chunkStep file len fuel off g
    if o.cont then chunkLoop file len fuel o.nextOff o.walkGlobals
    else o.result

/-- `ParseEVTXInt`: validate the 4096-byte header (short read fails; the
version word at offset 36 must be 0x00030001), then iterate chunks from
offset 0x1000. -/
def ParseEVTXInt (file : Bytes) (len fuel : Nat) (g : Globals) : Bool :=
  if len < 0x1000 then false
  else if readLE file 36 4 ≠ 0x00030001 then false
  else chunkLoop file len fuel 0x1000 g

/-- `ParseEVTX`: the result flag, paired with whether `Failed on <path>` is
printed (exactly when the walk failed). -/
def ParseEVTX (file : Bytes) (len fuel : Nat) (g : Globals) : Bool × Bool :=
  let result := ParseEVTXInt file len fuel g
  (result, !result)

/-! ## Lemmas about the byte reader -/

/-- `readLoop` copies `count` little-endian values and advances the offset by
`size · count`. -/
theorem readLoop_spec (buf : Bytes) (s count : Nat) :
    ∀ ctx : ParseContext,
      readLoop buf s count ctx =
        ((List.range count).map
          (fun i => readLE buf (ctx.start + ctx.offset + s * i) s),
         { ctx with offset := ctx.offset + s * count }) := by
  induction count with
  | zero => intro ctx; simp [readLoop]
  | succ n ih =>
    intro ctx
    have harg : (fun i => readLE buf
        ((ctx.SkipBytes s).start + (ctx.SkipBytes s).offset + s * i) s) =
        fun i => readLE buf (ctx.start + ctx.offset + s * (i + 1)) s := by
      funext i
      simp only [ParseContext.SkipBytes]
      congr 1
      ring
    simp only [readLoop, ih, harg]
    rw [Prod.mk.injEq]
    refine ⟨?_, ?_⟩
    · rw [List.range_succ_eq_map, List.map_cons, List.map_map]
      simp [Function.comp]
    · simp only [ParseContext.SkipBytes]
      congr 1
      ring

/-- `ReadData` succeeds exactly when the requested bytes fit in the window. -/
theorem ReadData_true_iff (buf : Bytes) (ctx : ParseContext) (s count : Nat) :
    (ReadData buf ctx s count).1 = true ↔
      ctx.offset + s * count ≤ ctx.dataLen := by
  unfold ReadData ParseContext.HaveEnoughData
  split <;> simp_all

/-- On success, `ReadData` advances the offset by `size · count` and changes
nothing else. -/
theorem ReadData_success_ctx (buf : Bytes) (ctx : ParseContext) (s count : Nat)
    (h : (ReadData buf ctx s count).1 = true) :
    (ReadData buf ctx s count).2.2 =
      { ctx with offset := ctx.offset + s * count } := by
  cases hc : ctx.HaveEnoughData (s * count) with
  | false => simp [ReadData, hc] at h
  | true => simp [ReadData, hc, readLoop_spec]

/-- On success, `ReadData` returns the `count` little-endian values at the
current position. -/
theorem ReadData_success_values (buf : Bytes) (ctx : ParseContext)
    (s count : Nat) (h : (ReadData buf ctx s count).1 = true) :
    (ReadData buf ctx s count).2.1 =
      (List.range count).map
        (fun i => readLE buf (ctx.start + ctx.offset + s * i) s) := by
  cases hc : ctx.HaveEnoughData (s * count) with
  | false => simp [ReadData, hc] at h
  | true => simp [ReadData, hc, readLoop_spec]

/-- A buffer of distinct small bytes for concrete witnesses. -/
def wbuf : Bytes := fun i => (i + 1) % 251

/-- A concrete in-bounds context for witnesses. -/
def wctx : ParseContext :=
  { start := 0, dataLen := 16, offset := 2, offsetFromChunkStart := 0,
    chunkStart := 0, chunkLen := 16 }

/-- A concrete context whose window is nearly exhausted. -/
def wctxShort : ParseContext :=
  { start := 0, dataLen := 3, offset := 2, offsetFromChunkStart := 0,
    chunkStart := 0, chunkLen := 3 }

/-- C5: a fixed-size read of `n` values of size `s` fails exactly when fewer
than `n·s` bytes remain between the offset and the window length (counting
the remainder as negative when the offset is past the end, as the unchecked
`SkipBytes` permits); on success it yields the `n` little-endian values and
advances the offset by exactly `n·s`. -/
theorem c5_ReadData_bounds (buf : Bytes) (ctx : ParseContext) (s count : Nat) :
    ((ReadData buf ctx s count).1 = false ↔
      (ctx.dataLen : Int) - (ctx.offset : Int) < (s : Int) * (count : Int))
    ∧ ((ReadData buf ctx s count).1 = true →
        (ReadData buf ctx s count).2.2 =
          { ctx with offset := ctx.offset + s * count } ∧
        (ReadData buf ctx s count).2.1 =
          (List.range count).map
            (fun i => readLE buf (ctx.start + ctx.offset + s * i) s)) := by
  refine ⟨?_, fun h => ⟨ReadData_success_ctx buf ctx s count h,
    ReadData_success_values buf ctx s count h⟩⟩
  rw [← Bool.not_eq_true, ReadData_true_iff, ← Nat.cast_mul]
  constructor <;> intro h <;> omega

/-- C5 witness: a concrete successful 3-element u16 read. -/
theorem c5_ReadData_bounds_witness :
    (ReadData wbuf wctx 2 3).2.2 = { wctx with offset := wctx.offset + 2 * 3 } ∧
    (ReadData wbuf wctx 2 3).2.1 =
      (List.range 3).map (fun i => readLE wbuf (wctx.start + wctx.offset + 2 * i) 2) :=
  (c5_ReadData_bounds wbuf wctx 2 3).2 (by decide)

/-- C9: a failing fixed-size read leaves the context exactly as it was —
the bounds check precedes any mutation, so a short read never leaves a
partially-advanced position (and the byte store is never written at all). -/
theorem c9_ReadData_failure_preserves (buf : Bytes) (ctx : ParseContext)
    (s count : Nat) (h : (ReadData buf ctx s count).1 = false) :
    (ReadData buf ctx s count).2.2 = ctx := by
  cases hc : ctx.HaveEnoughData (s * count) with
  | true => simp [ReadData, hc] at h
  | false => simp [ReadData, hc]

/-- C9 witness: a concrete failing u32 read (only 1 byte remains). -/
theorem c9_ReadData_failure_preserves_witness :
    (ReadData wbuf wctxShort 4 1).2.2 = wctxShort :=
  c9_ReadData_failure_preserves wbuf wctxShort 4 1 (by decide)

/-! ## C8 — `InheritWithOffset` -/

/-- A default-constructed context, as at the call sites of
`InheritWithOffset`. -/
def emptyCtx : ParseContext :=
  { start := 0, dataLen := 0, offset := 0, offsetFromChunkStart := 0,
    chunkStart := 0, chunkLen := 0 }

/-- A parent context that is itself a child window (its own chunk context is
a different, larger window), as arises for nested template definitions. -/
def c8parent : ParseContext :=
  { start := 64, dataLen := 100, offset := 4, offsetFromChunkStart := 7,
    chunkStart := 0, chunkLen := 65536 }

/-- C8 counterexample: the child's `chunkContext` is the parent itself
(`chunkContext = other` in the source), not the parent's chunk context —
for a parent whose own window differs from its chunk window, the two
disagree. -/
theorem c8_counterexample :
    ¬ ((emptyCtx.InheritWithOffset c8parent 10).chunkStart = c8parent.chunkStart ∧
       (emptyCtx.InheritWithOffset c8parent 10).chunkLen = c8parent.chunkLen) := by
  decide

/-- C8 amended: the child window starts at the parent's current offset, has
length `wantedLen` clamped to the parent's remaining bytes (0 when the
parent's offset is at or past its length), its `chunkContext` points at the
parent context itself, and its `offsetFromChunkStart` is the parent's offset
plus the parent's `offsetFromChunkStart`. -/
theorem c8_InheritWithOffset_amended (child other : ParseContext)
    (wantedLen : Nat) :
    (child.InheritWithOffset other wantedLen).start = other.start + other.offset ∧
    (child.InheritWithOffset other wantedLen).dataLen =
      min wantedLen (other.dataLen - other.offset) ∧
    (child.InheritWithOffset other wantedLen).offset = 0 ∧
    (child.InheritWithOffset other wantedLen).chunkStart = other.start ∧
    (child.InheritWithOffset other wantedLen).chunkLen = other.dataLen ∧
    (child.InheritWithOffset other wantedLen).offsetFromChunkStart =
      other.offset + other.offsetFromChunkStart ∧
    (child.InheritWithOffset other wantedLen).cachedValue = [] := by
  unfold ParseContext.InheritWithOffset
  refine ⟨rfl, ?_, rfl, rfl, rfl, rfl, rfl⟩
  simp only
  split_ifs <;> omega

/-! ## C4 — the `Data`/`EventData` contextual key rewrite -/

/-- C4: the effective key produced by `GetProperKeyName` (used by both the
fixed-pair registration in `ParseValueText` and the argument-pair
registration in `ParseOptionalSubstitution`) is the context's `cachedValue`
exactly when the name-stack top is `Data`, the name below it is `EventData`,
and `cachedValue` is non-empty; in every other case it is the name-stack
top. -/
theorem c4_GetProperKeyName (ctx : ParseContext) (g : Globals) :
    GetProperKeyName ctx g =
      if g.nameStack.GetName = some dataKey ∧
         g.nameStack.GetUpperName = some eventDataKey ∧
         ctx.cachedValue ≠ [] then
        some ctx.cachedValue
      else g.nameStack.GetName := by
  unfold GetProperKeyName
  by_cases hb : (g.nameStack.GetName = some dataKey ∧
      g.nameStack.GetUpperName = some eventDataKey ∧ ctx.cachedValue ≠ [])
  · rw [if_pos hb, if_pos]
    exact ⟨by rw [hb.2.1]; rfl, by rw [hb.1]; rfl, hb.1, hb.2.1, hb.2.2⟩
  · rw [if_neg hb, if_neg]
    intro ha
    exact hb ⟨ha.2.2.1, ha.2.2.2.1, ha.2.2.2.2⟩

/-! ## C6 — the name-stack depth invariant -/

/-- The stack-pointer invariant: within `[-1, 20)`. -/
def stackInv (s : NameStack) : Prop :=
  -1 ≤ s.nameStackPtr ∧ s.nameStackPtr < (maxNameStackDepth : Int)

/-- Each stack operation preserves the pointer invariant. -/
theorem applyOp_inv (s : NameStack) (op : StackOp) (h : stackInv s) :
    stackInv (applyOp s op) := by
  simp only [stackInv, maxNameStackDepth, Nat.cast_ofNat] at h ⊢
  obtain ⟨h1, h2⟩ := h
  cases op with
  | push name =>
    simp only [applyOp, NameStack.PushName, maxNameStackDepth, Nat.cast_ofNat]
    split_ifs with hf
    · exact ⟨h1, h2⟩
    · dsimp only
      constructor <;> omega
  | pop =>
    simp only [applyOp, NameStack.PopName]
    split_ifs with hf
    · dsimp only
      constructor <;> omega
    · exact ⟨h1, h2⟩

/-- Any sequence of stack operations preserves the pointer invariant. -/
theorem applyOps_inv (ops : List StackOp) :
    ∀ s : NameStack, stackInv s → stackInv (applyOps s ops) := by
  induction ops with
  | nil => intro s h; exact h
  | cons op rest ih =>
    intro s h
    exact ih (applyOp s op) (applyOp_inv s op h)

/-- C6: under any sequence of pushes and pops from the initial stack, the
depth (`nameStackPtr + 1`) stays within `[0, 20]`, and a push attempted at
depth 20 changes nothing.  (Reads — `GetName`, `GetUpperName` — do not
modify the stack at all.) -/
theorem c6_nameStack_bounded (ops : List StackOp) :
    0 ≤ (applyOps NameStack.init ops).nameStackPtr + 1 ∧
    (applyOps NameStack.init ops).nameStackPtr + 1 ≤ 20 ∧
    ∀ name, (applyOps NameStack.init ops).nameStackPtr + 1 = 20 →
      (applyOps NameStack.init ops).PushName name = applyOps NameStack.init ops := by
  have hinv : stackInv (applyOps NameStack.init ops) :=
    applyOps_inv ops NameStack.init
      (by simp [stackInv, NameStack.init, maxNameStackDepth])
  simp only [stackInv, maxNameStackDepth, Nat.cast_ofNat] at hinv
  obtain ⟨h1, h2⟩ := hinv
  refine ⟨by omega, by omega, fun name hfull => ?_⟩
  have hge : (applyOps NameStack.init ops).nameStackPtr + 1 ≥
      (maxNameStackDepth : Int) := by
    simp only [maxNameStackDepth, Nat.cast_ofNat]
    omega
  unfold NameStack.PushName
  rw [if_pos hge]

/-- Twenty pushes from the initial stack. -/
def ops20 : List StackOp := List.replicate 20 (StackOp.push [65])

/-- C6 witness: after 20 pushes the stack is full and a further push is a
no-op. -/
theorem c6_nameStack_bounded_witness :
    (applyOps NameStack.init ops20).PushName [66] = applyOps NameStack.init ops20 :=
  (c6_nameStack_bounded ops20).2.2 [66] (by decide)

/-! ## C7 — the UTF-16 → UTF-8 transcoder -/

/-- The number of UTF-8 bytes the transcoder produces for a 16-bit unit. -/
def utf8Len (w : Nat) : Nat :=
  if w ≤ 0x7F then 1 else if w ≤ 0x7FF then 2 else 3

/-- `writeTrail` touches only indices in `(base, base + k]`. -/
theorem writeTrail_outside (base j : Nat) :
    ∀ (k : Nat) (buffer : Bytes) (w : Nat), (j ≤ base ∨ base + k < j) →
      (writeTrail buffer base w k).1 j = buffer j := by
  intro k
  induction k with
  | zero => intro buffer w _; rfl
  | succ n ih =>
    intro buffer w hj
    simp only [writeTrail]
    rw [ih _ _ (by omega)]
    unfold writeByte
    rw [if_neg (by omega)]

/-- Shape of the transcoder's result for a genuine 16-bit unit: nothing
happens when the encoded bytes would not fit strictly below the buffer size;
otherwise the written bytes land in `[used, used + len)` and `used` advances
by exactly `len`. -/
theorem UTF16ToUTF8_shape (w : Nat) (buffer : Bytes) (used size : Nat)
    (hw : w < 0x10000) :
    (size ≤ used + utf8Len w ∧ UTF16ToUTF8 w buffer used size = (buffer, used)) ∨
    (used + utf8Len w < size ∧
      (UTF16ToUTF8 w buffer used size).2 = used + utf8Len w ∧
      ∀ j, j < used ∨ used + utf8Len w ≤ j →
        (UTF16ToUTF8 w buffer used size).1 j = buffer j) := by
  by_cases h1 : w ≤ 0x7F
  · have el : utf8Len w = 1 := by simp [utf8Len, h1]
    rw [el]
    by_cases hg : size ≤ used + 1
    · left
      refine ⟨hg, ?_⟩
      simp [UTF16ToUTF8, show ¬ w > 0x7F by omega, show ¬ w > 0x7FF by omega,
        show ¬ w > 0xFFFF by omega, show used + 1 ≥ size by omega]
    · right
      refine ⟨by omega, ?_, ?_⟩
      · simp [UTF16ToUTF8, show ¬ w > 0x7F by omega, show ¬ w > 0x7FF by omega,
          show ¬ w > 0xFFFF by omega, show ¬ used + 1 ≥ size by omega]
      · intro j hj
        simp [UTF16ToUTF8, writeByte, show ¬ w > 0x7F by omega,
          show ¬ w > 0x7FF by omega, show ¬ w > 0xFFFF by omega,
          show ¬ used + 1 ≥ size by omega, show j ≠ used by omega]
  · by_cases h2 : w ≤ 0x7FF
    · have el : utf8Len w = 2 := by simp [utf8Len, h1, h2]
      rw [el]
      by_cases hg : size ≤ used + 2
      · left
        refine ⟨hg, ?_⟩
        simp [UTF16ToUTF8, show w > 0x7F by omega, show ¬ w > 0x7FF by omega,
          show ¬ w > 0xFFFF by omega, show used + 2 ≥ size by omega]
      · right
        refine ⟨by omega, ?_, ?_⟩
        · simp [UTF16ToUTF8, show w > 0x7F by omega, show ¬ w > 0x7FF by omega,
            show ¬ w > 0xFFFF by omega, show ¬ used + 2 ≥ size by omega]
        · intro j hj
          simp [UTF16ToUTF8, writeByte, show w > 0x7F by omega,
            show ¬ w > 0x7FF by omega, show ¬ w > 0xFFFF by omega,
            show ¬ used + 2 ≥ size by omega, show j ≠ used by omega]
          exact writeTrail_outside used j _ buffer w (by omega)
    · have el : utf8Len w = 3 := by simp [utf8Len, h1, h2]
      rw [el]
      by_cases hg : size ≤ used + 3
      · left
        refine ⟨hg, ?_⟩
        simp [UTF16ToUTF8, show w > 0x7F by omega, show w > 0x7FF by omega,
          show ¬ w > 0xFFFF by omega, show used + 3 ≥ size by omega]
      · right
        refine ⟨by omega, ?_, ?_⟩
        · simp [UTF16ToUTF8, show w > 0x7F by omega, show w > 0x7FF by omega,
            show ¬ w > 0xFFFF by omega, show ¬ used + 3 ≥ size by omega]
        · intro j hj
          simp [UTF16ToUTF8, writeByte, show w > 0x7F by omega,
            show w > 0x7FF by omega, show ¬ w > 0xFFFF by omega,
            show ¬ used + 3 ≥ size by omega, show j ≠ used by omega]
          exact writeTrail_outside used j _ buffer w (by omega)

/-- C7: for every 16-bit unit the transcoder writes 1 byte for `w ≤ 0x7F`,
2 bytes for `0x80..0x7FF`, 3 bytes for `0x800..0xFFFF` — given sufficient
remaining space — confined to `[used, used + len)`, and it never writes at
or past the declared buffer length. -/
theorem c7_UTF16ToUTF8 (w : Nat) (buffer : Bytes) (used size : Nat)
    (hw : w < 0x10000) :
    (∀ j, size ≤ j → (UTF16ToUTF8 w buffer used size).1 j = buffer j) ∧
    (∀ j, j < used ∨ used + utf8Len w ≤ j →
      (UTF16ToUTF8 w buffer used size).1 j = buffer j) ∧
    (used + utf8Len w < size →
      (UTF16ToUTF8 w buffer used size).2 = used + utf8Len w) := by
  rcases UTF16ToUTF8_shape w buffer used size hw with ⟨hg, he⟩ | ⟨hg, h2, h3⟩
  · rw [he]
    exact ⟨fun j _ => rfl, fun j _ => rfl, fun hc => by omega⟩
  · exact ⟨fun j hj => h3 j (by omega), h3, fun _ => h2⟩

/-- An all-zero buffer for witnesses. -/
def zbuf : Bytes := fun _ => 0

/-- C7 witness: transcoding U+0444 at the start of an 8-byte buffer writes
two bytes. -/
theorem c7_UTF16ToUTF8_witness :
    (UTF16ToUTF8 0x444 zbuf 0 8).2 = 0 + utf8Len 0x444 :=
  (c7_UTF16ToUTF8 0x444 zbuf 0 8 (by decide)).2.2 (by decide)

/-! ## C10 — stream advance of `ReadPrefixedUnicodeString` -/

/-- On success, the character loop advances the offset by 2 bytes per
consumed unit, and consumes between `idx` and `nameCharCnt` units. -/
theorem rpusLoop_spec (buf : Bytes) (cnt size : Nat) :
    ∀ (fuel idx : Nat) (ctx : ParseContext) (buffer : Bytes) (used : Nat),
      idx ≤ cnt →
      (rpusLoop buf cnt size fuel idx ctx buffer used).1 = true →
      (rpusLoop buf cnt size fuel idx ctx buffer used).2.1 =
        { ctx with offset := ctx.offset +
            2 * ((rpusLoop buf cnt size fuel idx ctx buffer used).2.2.2.2 - idx) } ∧
      idx ≤ (rpusLoop buf cnt size fuel idx ctx buffer used).2.2.2.2 ∧
      (rpusLoop buf cnt size fuel idx ctx buffer used).2.2.2.2 ≤ cnt := by
  intro fuel
  induction fuel with
  | zero =>
    intro idx ctx buffer used hidx _
    refine ⟨?_, le_refl _, hidx⟩
    simp [rpusLoop]
  | succ n ih =>
    intro idx ctx buffer used hidx hok
    by_cases hc : idx < cnt ∧ idx * 2 < size - 1
    · have hr1 : rpusLoop buf cnt size (n + 1) idx ctx buffer used =
          match ReadData buf ctx 2 1 with
          | (false, _, c) => (false, c, buffer, used, idx)
          | (true, vs, c) =>
            let r := UTF16ToUTF8 (vs.headD 0) buffer used size
            rpusLoop buf cnt size n (idx + 1) c r.1 r.2 := by
        rw [rpusLoop, if_pos hc]
      rcases hR : ReadData buf ctx 2 1 with ⟨ok, vs, c⟩
      rw [hr1, hR] at hok ⊢
      cases ok with
      | false => simp at hok
      | true =>
        simp only at hok ⊢
        have hcc : c = { ctx with offset := ctx.offset + 2 } := by
          have h2 := ReadData_success_ctx buf ctx 2 1 (by rw [hR])
          rw [hR] at h2
          simpa using h2
        subst hcc
        obtain ⟨e1, e2, e3⟩ := ih (idx + 1) _ _ _ (by omega) hok
        refine ⟨?_, by omega, e3⟩
        rw [e1]
        dsimp only
        congr 1
        omega
    · have hr1 : rpusLoop buf cnt size (n + 1) idx ctx buffer used =
          (true, ctx, buffer, used, idx) := by
        rw [rpusLoop, if_neg hc]
      rw [hr1]
      refine ⟨?_, le_refl _, hidx⟩
      simp

/-- C10: a successful length-prefixed UTF-16LE string read advances the
offset by exactly `2 + 2·c` bytes, where `c` is the wire-declared code-unit
count, plus 2 when a trailing NUL unit is expected — regardless of the
destination buffer size and of any transcoding truncation. -/
theorem c10_ReadPrefixedUnicodeString_advance (buf : Bytes)
    (ctx : ParseContext) (size : Nat) (isNull : Bool)
    (h : (ReadPrefixedUnicodeString buf ctx size isNull).1 = true) :
    (ReadPrefixedUnicodeString buf ctx size isNull).2.2.offset =
      ctx.offset + 2 + 2 * readLE buf (ctx.start + ctx.offset) 2 +
        (if isNull then 2 else 0) := by
  rcases hR : ReadData buf ctx 2 1 with ⟨ok, vs, c1⟩
  cases ok with
  | false =>
    unfold ReadPrefixedUnicodeString at h
    rw [hR] at h
    simp at h
  | true =>
    have hc1 : c1 = { ctx with offset := ctx.offset + 2 } := by
      have h2 := ReadData_success_ctx buf ctx 2 1 (by rw [hR])
      rw [hR] at h2
      simpa using h2
    have hvs : vs.headD 0 = readLE buf (ctx.start + ctx.offset) 2 := by
      have h2 := ReadData_success_values buf ctx 2 1 (by rw [hR])
      rw [hR] at h2
      have h3 : vs = List.map
          (fun i => readLE buf (ctx.start + ctx.offset + 2 * i) 2)
          (List.range 1) := h2
      rw [h3]
      rfl
    have he : ReadPrefixedUnicodeString buf ctx size isNull =
        match rpusLoop buf (vs.headD 0) size (vs.headD 0) 0 c1 (fun _ => 0) 0 with
        | (false, c, _, _, _) => (false, [], c)
        | (true, ctx2, buffer, used, idx) =>
          (true, (List.range (if used ≥ size then size - 1 else used)).map buffer,
            ctx2.SkipBytes ((vs.headD 0 - idx + (if isNull then 1 else 0)) * 2)) := by
      unfold ReadPrefixedUnicodeString
      rw [hR]
    rw [he] at h ⊢
    rcases hL : rpusLoop buf (vs.headD 0) size (vs.headD 0) 0 c1
        (fun _ => 0) 0 with ⟨ok2, c2, bb, uu, idxF⟩
    rw [hL] at h
    cases ok2 with
    | false => simp at h
    | true =>
      have hspec := rpusLoop_spec buf (vs.headD 0) size (vs.headD 0) 0 c1
        (fun _ => 0) 0 (Nat.zero_le _) (by rw [hL])
      rw [hL] at hspec
      obtain ⟨e1, e2, e3⟩ := hspec
      simp only at e1 e2 e3 ⊢
      rw [ParseContext.SkipBytes, e1, hc1]
      dsimp only
      rw [← hvs]
      set k := vs.headD 0 with hk
      cases isNull <;> simp <;> omega

/-- A wire buffer holding the UTF-16LE string `AB` with a 2-unit length
prefix and trailing NUL. -/
def c10buf : Bytes := fun i =>
  ([2, 0, 0x41, 0, 0x42, 0, 0, 0].getD i 0)

/-- The context for the C10 witness. -/
def c10ctx : ParseContext :=
  { start := 0, dataLen := 16, offset := 0, offsetFromChunkStart := 0,
    chunkStart := 0, chunkLen := 16 }

/-- C10 witness: a 2-unit ASCII string with trailing NUL advances the offset
by 2 + 2·2 + 2 = 8 bytes. -/
theorem c10_ReadPrefixedUnicodeString_advance_witness :
    (ReadPrefixedUnicodeString c10buf c10ctx 256 true).2.2.offset =
      c10ctx.offset + 2 + 2 * readLE c10buf (c10ctx.start + c10ctx.offset) 2 +
        (if true then 2 else 0) :=
  c10_ReadPrefixedUnicodeString_advance c10buf c10ctx 256 true (by decide)

/-! ## C1 — stream advance of the typed argument renderer -/

/-- On success, the string-argument loop advances the offset by 2 bytes per
unit. -/
theorem stringArgLoop_advance (buf : Bytes) (ss : Nat) :
    ∀ (n : Nat) (ctx : ParseContext) (sb : Bytes) (used : Nat),
      (stringArgLoop buf ss n ctx sb used).1 = true →
      (stringArgLoop buf ss n ctx sb used).2.1 =
        { ctx with offset := ctx.offset + 2 * n } := by
  intro n
  induction n with
  | zero =>
    intro ctx sb used _
    simp [stringArgLoop]
  | succ m ih =>
    intro ctx sb used hok
    rcases hR : ReadData buf ctx 2 1 with ⟨ok, vs, c⟩
    rw [stringArgLoop, hR] at hok ⊢
    cases ok with
    | false => simp at hok
    | true =>
      simp only at hok ⊢
      have hcc : c = { ctx with offset := ctx.offset + 2 } := by
        have h2 := ReadData_success_ctx buf ctx 2 1 (by rw [hR])
        rw [hR] at h2
        simpa using h2
      subst hcc
      rw [ih _ _ _ hok]
      dsimp only
      congr 1
      ring

/-- On success, the binary-argument loop advances the offset by 1 byte per
iteration. -/
theorem binArgLoop_advance (buf : Bytes) :
    ∀ (n : Nat) (ctx : ParseContext),
      (binArgLoop buf n ctx).1 = true →
      (binArgLoop buf n ctx).2 = { ctx with offset := ctx.offset + n } := by
  intro n
  induction n with
  | zero =>
    intro ctx _
    simp [binArgLoop]
  | succ m ih =>
    intro ctx hok
    rcases hR : ReadData buf ctx 1 1 with ⟨ok, vs, c⟩
    rw [binArgLoop, hR] at hok ⊢
    cases ok with
    | false => simp at hok
    | true =>
      simp only at hok ⊢
      have hcc : c = { ctx with offset := ctx.offset + 1 } := by
        have h2 := ReadData_success_ctx buf ctx 1 1 (by rw [hR])
        rw [hR] at h2
        simpa using h2
      subst hcc
      rw [ih _ hok]
      dsimp only
      congr 1
      omega

/-- On success — and with fuel at least the residual length, as at the call
site — the SID sub-authority loop advances the offset by 4 bytes per full
4-byte group remaining. -/
theorem sidSubLoop_advance (buf : Bytes) (argLen : Nat) :
    ∀ (fuel idx : Nat) (ctx : ParseContext),
      (sidSubLoop buf argLen fuel idx ctx).1 = true →
      argLen ≤ idx + 4 * fuel →
      (sidSubLoop buf argLen fuel idx ctx).2 =
        { ctx with offset := ctx.offset + 4 * ((argLen - idx) / 4) } := by
  intro fuel
  induction fuel with
  | zero =>
    intro idx ctx _ hb
    have hz : (argLen - idx) / 4 = 0 := by omega
    simp [sidSubLoop, hz]
  | succ m ih =>
    intro idx ctx hok hb
    by_cases hc : idx + 4 ≤ argLen
    · rcases hR : ReadData buf ctx 4 1 with ⟨ok, vs, c⟩
      rw [sidSubLoop, if_pos hc, hR] at hok ⊢
      cases ok with
      | false => simp at hok
      | true =>
        simp only at hok ⊢
        have hcc : c = { ctx with offset := ctx.offset + 4 } := by
          have h2 := ReadData_success_ctx buf ctx 4 1 (by rw [hR])
          rw [hR] at h2
          simpa using h2
        subst hcc
        rw [ih _ _ hok (by omega)]
        dsimp only
        congr 1
        have hd : (argLen - idx) / 4 = (argLen - (idx + 4)) / 4 + 1 := by omega
        rw [hd]
        ring
    · rw [sidSubLoop, if_neg hc]
      have hz : (argLen - idx) / 4 = 0 := by omega
      simp [hz]

/-- The net stream consumption of the typed argument renderer, per type
code: the declared length for binary/nested/array/unknown codes, the type's
intrinsic size for the scalar codes, `2·⌊len/2⌋` for strings, and
`8 + 4·⌊(len−8)/4⌋` for SIDs. -/
def argAdvance (argType argLen : Nat) : Nat :=
  if argType = 0x01 then 2 * (argLen / 2)
  else if argType = 0x04 then 1
  else if argType = 0x06 then 2
  else if argType = 0x08 then 4
  else if argType = 0x0A then 8
  else if argType = 0x0E then argLen
  else if argType = 0x0F then 16
  else if argType = 0x14 then 4
  else if argType = 0x15 then 8
  else if argType = 0x11 then 8
  else if argType = 0x13 then 8 + 4 * ((argLen - 8) / 4)
  else argLen

/-- C1 (amended): for a slot with a declared (key, type) entry, a successful
rendering advances the parse offset by `argAdvance` of the type code and
declared length — which equals the declared length only for the
skip-by-length codes (0x0E, 0x21, 0x81, unknown), not for the scalar
codes. -/
theorem c1_renderArg_advance (buf : Bytes) (fuel argType argLen : Nat)
    (ctx : ParseContext) (g : Globals)
    (h : (renderArg buf fuel argType argLen ctx g).1 = true) :
    (renderArg buf fuel argType argLen ctx g).2.1.offset =
      ctx.offset + argAdvance argType argLen := by
  cases fuel with
  | zero => simp [renderArg.eq_1] at h
  | succ n =>
    rw [renderArg.eq_2] at h ⊢
    unfold argAdvance
    by_cases h1 : argType = 0x01
    · simp only [if_pos h1] at h ⊢
      replace h : (stringArgLoop buf (argLen * 2 + 2) (argLen / 2) ctx
        (fun _ => 0) 0).1 = true := h
      show (stringArgLoop buf (argLen * 2 + 2) (argLen / 2) ctx
        (fun _ => 0) 0).2.1.offset = ctx.offset + 2 * (argLen / 2)
      rw [stringArgLoop_advance buf (argLen * 2 + 2) (argLen / 2) ctx _ _ h]
    simp only [if_neg h1] at h ⊢
    by_cases h2 : argType = 0x04
    · simp only [if_pos h2] at h ⊢
      replace h : (ReadData buf ctx 1 1).1 = true := h
      show (ReadData buf ctx 1 1).2.2.offset = ctx.offset + 1
      rw [ReadData_success_ctx buf ctx 1 1 h]
    simp only [if_neg h2] at h ⊢
    by_cases h3 : argType = 0x06
    · simp only [if_pos h3] at h ⊢
      replace h : (ReadData buf ctx 2 1).1 = true := h
      show (ReadData buf ctx 2 1).2.2.offset = ctx.offset + 2
      rw [ReadData_success_ctx buf ctx 2 1 h]
    simp only [if_neg h3] at h ⊢
    by_cases h4 : argType = 0x08
    · simp only [if_pos h4] at h ⊢
      replace h : (ReadData buf ctx 4 1).1 = true := h
      show (ReadData buf ctx 4 1).2.2.offset = ctx.offset + 4
      rw [ReadData_success_ctx buf ctx 4 1 h]
    simp only [if_neg h4] at h ⊢
    by_cases h5 : argType = 0x0A
    · simp only [if_pos h5] at h ⊢
      replace h : (ReadData buf ctx 8 1).1 = true := h
      show (ReadData buf ctx 8 1).2.2.offset = ctx.offset + 8
      rw [ReadData_success_ctx buf ctx 8 1 h]
    simp only [if_neg h5] at h ⊢
    by_cases h6 : argType = 0x0E
    · simp only [if_pos h6] at h ⊢
      replace h : (binArgLoop buf argLen ctx).1 = true := h
      show (binArgLoop buf argLen ctx).2.offset = ctx.offset + argLen
      rw [binArgLoop_advance buf argLen ctx h]
    simp only [if_neg h6] at h ⊢
    by_cases h7 : argType = 0x0F
    · simp only [if_pos h7] at h ⊢
      replace h : (ReadData buf ctx 16 1).1 = true := h
      show (ReadData buf ctx 16 1).2.2.offset = ctx.offset + 16
      rw [ReadData_success_ctx buf ctx 16 1 h]
    simp only [if_neg h7] at h ⊢
    by_cases h8 : argType = 0x14
    · simp only [if_pos h8] at h ⊢
      replace h : (ReadData buf ctx 4 1).1 = true := h
      show (ReadData buf ctx 4 1).2.2.offset = ctx.offset + 4
      rw [ReadData_success_ctx buf ctx 4 1 h]
    simp only [if_neg h8] at h ⊢
    by_cases h9 : argType = 0x15
    · simp only [if_pos h9] at h ⊢
      replace h : (ReadData buf ctx 8 1).1 = true := h
      show (ReadData buf ctx 8 1).2.2.offset = ctx.offset + 8
      rw [ReadData_success_ctx buf ctx 8 1 h]
    simp only [if_neg h9] at h ⊢
    by_cases h10 : argType = 0x11
    · simp only [if_pos h10] at h ⊢
      replace h : (ReadData buf ctx 8 1).1 = true := h
      show (ReadData buf ctx 8 1).2.2.offset = ctx.offset + 8
      rw [ReadData_success_ctx buf ctx 8 1 h]
    simp only [if_neg h10] at h ⊢
    by_cases h11 : argType = 0x13
    · simp only [if_pos h11] at h ⊢
      by_cases hlt : argLen < 8
      · simp only [if_pos hlt] at h
        exact Bool.noConfusion h
      simp only [if_neg hlt] at h ⊢
      rcases hR : ReadData buf ctx 1 8 with ⟨ok, vs, c⟩
      rw [hR] at h
      cases ok with
      | false => exact Bool.noConfusion h
      | true =>
        replace h : (sidSubLoop buf argLen argLen 8 c).1 = true := h
        show (sidSubLoop buf argLen argLen 8 c).2.offset =
          ctx.offset + (8 + 4 * ((argLen - 8) / 4))
        have hcc : c = { ctx with offset := ctx.offset + 8 } := by
          have hx := ReadData_success_ctx buf ctx 1 8 (by rw [hR])
          rw [hR] at hx
          simpa using hx
        subst hcc
        rw [sidSubLoop_advance buf argLen argLen 8 _ h (by omega)]
        dsimp only
        omega
    simp only [if_neg h11] at h ⊢
    by_cases h12 : argType = 0x21
    · simp only [if_pos h12] at h ⊢
      show (ctx.SkipBytes argLen).offset = ctx.offset + argLen
      simp [ParseContext.SkipBytes]
    simp only [if_neg h12] at h ⊢
    by_cases h13 : argType = 0x81
    · simp only [if_pos h13] at h ⊢
      show (ctx.SkipBytes argLen).offset = ctx.offset + argLen
      simp [ParseContext.SkipBytes]
    simp only [if_neg h13] at h ⊢
    show (ctx.SkipBytes argLen).offset = ctx.offset + argLen
    simp [ParseContext.SkipBytes]

/-- A context over 32 in-bounds bytes for C1 inputs. -/
def c1ctx : ParseContext :=
  { start := 0, dataLen := 32, offset := 0, offsetFromChunkStart := 0,
    chunkStart := 0, chunkLen := 32 }

/-- C1 counterexample: a u8-typed slot (0x04) whose declared length is 2
renders successfully but advances the offset by 1, not by the declared
16-bit length. -/
theorem c1_counterexample :
    (renderArg wbuf 5 0x04 2 c1ctx initGlobals).1 = true ∧
    ¬ ((renderArg wbuf 5 0x04 2 c1ctx initGlobals).2.1.offset =
        c1ctx.offset + 2) := by
  decide

/-- C1 witness: a SID slot of declared length 14 advances by
`8 + 4·⌊6/4⌋ = 12` bytes. -/
theorem c1_renderArg_advance_witness :
    (renderArg wbuf 5 0x13 14 c1ctx initGlobals).2.1.offset =
      c1ctx.offset + argAdvance 0x13 14 :=
  c1_renderArg_advance wbuf 5 0x13 14 c1ctx initGlobals (by decide)

/-! ## C2 — template cache / name stack at chunk boundaries -/

/-- A minimal EVTX image: a valid header (version 0x00030001), one chunk at
offset 0x1000 with record range 1..1, and a single record (number 1, size
0xFE00) whose BinXml is a template instance that defines template 0x42 with
an empty body, followed by EOF.  All unlisted bytes are zero. -/
def c2pairs : List (Nat × Nat) :=
  [ (36, 0x01), (38, 0x03),
    (0x1000, 0x45), (0x1001, 0x6C), (0x1002, 0x66), (0x1003, 0x43),
    (0x1004, 0x68), (0x1005, 0x6E), (0x1006, 0x6B),
    (0x1008, 1), (0x1010, 1),
    (0x1200, 0x2A), (0x1201, 0x2A),
    (0x1205, 0xFE),
    (0x1208, 1),
    (0x1218, 0x0C), (0x1219, 0x01),
    (0x121A, 0x42),
    (0x1236, 0x01) ]

/-- The byte store of the C2 image. -/
def c2file : Bytes := fun i => (c2pairs.lookup i).getD 0

/-- C2 counterexample: the walker fully processes the C2 image (the walk
succeeds), yet the state observed right after the first chunk's record walk
terminates — by end of records — holds a registered template, so the
template cache is not empty there (the cache and stack are only reset at the
START of the next chunk's processing). -/
theorem c2_counterexample :
    ParseEVTXInt c2file 0x11000 101 initGlobals = true ∧
    ¬ ((chunkStep c2file 0x11000 100 0x1000 initGlobals).walkGlobals.ids = []) := by
  decide

/-- C2 amended: the template cache and the name stack are reset at the start
of each chunk's processing, so every chunk's walk is insensitive to a prior
reset of the globals; they are not in general empty after the chunk's record
walk terminates. -/
theorem c2_chunkStep_reset (file : Bytes) (len fuel off : Nat) (g : Globals) :
    chunkStep file len fuel off (resetGlobals g) =
      chunkStep file len fuel off g := by
  simp [chunkStep, resetGlobals, NameStack.Reset]

/-! ## C3 — record-failure semantics of the walker -/

/-- C3: when a record with a valid header fails to decode (for the given
fuel), the chunk's record walk ends right there, and its `result` flag is
false exactly when the record's number lies in the chunk header's
`[firstRecordNumber, lastRecordNumber]` range; the `finishChunk` tail then
turns a failed walk into a stopped, failed outer loop and a clean walk into
a continuing one (the `inRecordOff > off` escalation cannot fire here since
the failing record's offset is inside the chunk); and `Failed on <path>` is
printed exactly when `ParseEVTX`'s walk result is false. -/
theorem c3_record_failure (file : Bytes) (fuel cb first last iro : Nat)
    (g : Globals)
    (hhdr : iro + recordHeaderSize ≤ chunkSize)
    (hmagic : readLE file (cb + iro) 4 = 0x00002a2a)
    (hfail : (ParseBinXmlPre (fun i => file (cb + i)) chunkSize
      (iro + recordHeaderSize) fuel g).1 = false) :
    recordWalk file (fuel + 1) cb first last iro g =
      (!decide (first ≤ readLE file (cb + iro + 8) 8 ∧
                readLE file (cb + iro + 8) 8 ≤ last), iro,
       (ParseBinXmlPre (fun i => file (cb + i)) chunkSize
         (iro + recordHeaderSize) fuel g).2.2)
    ∧ (∀ (off : Nat) (wg : Globals) (res : Bool),
        finishChunk off (res, iro, wg) = ⟨res, res, wg, off + chunkSize⟩)
    ∧ (∀ (f2 : Bytes) (l2 fl2 : Nat) (g2 : Globals),
        (ParseEVTX f2 l2 fl2 g2).2 = !(ParseEVTX f2 l2 fl2 g2).1) := by
  refine ⟨?_, ?_, ?_⟩
  · rw [recordWalk, if_neg (by omega), if_neg (by simp [hmagic])]
    rcases hP : ParseBinXmlPre (fun i => file (cb + i)) chunkSize
      (iro + recordHeaderSize) fuel g with ⟨ok, cc, g2⟩
    rw [hP] at hfail
    cases ok with
    | true => exact Bool.noConfusion hfail
    | false =>
      simp only
      by_cases hin : first ≤ readLE file (cb + iro + 8) 8 ∧
          readLE file (cb + iro + 8) 8 ≤ last
      · rw [if_pos hin]
        simp [hin]
      · rw [if_neg hin]
        simp [hin]
  · intro off wg res
    unfold finishChunk
    rw [if_neg (by simp only; omega)]
  · intro f2 l2 fl2 g2
    rfl

/-- A chunk image whose first record has a valid header (number 1, inside
the declared range 1..1) but an invalid leading BinXml tag 0xFF, so its
decode fails. -/
def c3pairs : List (Nat × Nat) :=
  [ (0x1200, 0x2A), (0x1201, 0x2A), (0x1208, 1), (0x1218, 0xFF) ]

/-- The byte store of the C3 image. -/
def c3file : Bytes := fun i => (c3pairs.lookup i).getD 0

/-- C3 witness: on the concrete failing in-range record, the record walk
ends at the failing record with the walk marked failed. -/
theorem c3_record_failure_witness :
    (recordWalk c3file 6 0x1000 1 1 0x200 initGlobals).1 = false := by
  have h := c3_record_failure c3file 5 0x1000 1 1 0x200 initGlobals
    (by decide) (by decide) (by decide)
  rw [h.1]
  decide

end Evtx
